import Mathlib

/-!
Shallow embedding of the poll-lifecycle core of `src/bot.py` (a collaborative
"build code one line at a time" chat bot) and proofs of the specified
properties.

Python dicts are modelled as insertion-ordered association lists, which is
what determines both lookup behaviour and the iteration order used by
`max(votes, key=votes.get)`.  The external collaborators (Telegram gateway,
LLM backend, clock) enter as explicit inputs: the gateway-issued poll and
message ids, the raw LLM reply string, and the current time.
-/

namespace Bot

/-- Python dict lookup `d.get(k)` on an insertion-ordered association list. -/
def dictGet {α β : Type} [DecidableEq α] : List (α × β) → α → Option β
  | [], _ => none
  | (k', v') :: t, k => if k' = k then some v' else dictGet t k

/-- Python dict assignment `d[k] = v`: an existing key keeps its position,
a new key is appended at the end. -/
def dictSet {α β : Type} [DecidableEq α] : List (α × β) → α → β → List (α × β)
  | [], k, v => [(k, v)]
  | (k', v') :: t, k, v => if k' = k then (k, v) :: t else (k', v') :: dictSet t k v

abbrev ChatId := String
abbrev PollId := String

/-- The in-flight poll record `poll_data` built in `send_poll` (bot.py 510-517).
`votes` mirrors the Python dict `{i: 0 for i in range(4)}`; timestamps are Nat. -/
structure PollRecord where
  poll_id : PollId
  message_id : Nat
  options : List String
  votes : List (Nat × Nat)
  close_time : Nat
  created_at : Nat
deriving DecidableEq

/-- The archived `poll_result` built in `close_poll` (bot.py 587-594). -/
structure PollResult where
  poll_id : PollId
  options : List String
  votes : List (Nat × Nat)
  winner : String
  winner_index : Nat
  closed_at : Nat
deriving DecidableEq

/-- One chat's entry in the storage: `{"polls": [...], "active_poll": ...}`. -/
structure Chat where
  polls : List PollResult
  active_poll : Option PollRecord
deriving DecidableEq

def emptyChat : Chat := ⟨[], none⟩

/-- `BotStorage.data`: the `"chats"` mapping, keyed by the chat id string. -/
structure Store where
  chats : List (ChatId × Chat)
deriving DecidableEq

/-- `BotStorage.get_chat` (bot.py 64-72): lazily creates the chat entry and
returns it.  The store is returned as well because the lazy creation persists. -/
def get_chat (s : Store) (c : ChatId) : Store × Chat :=
  match dictGet s.chats c with
  | some ch => (s, ch)
  | none => (⟨s.chats ++ [(c, emptyChat)]⟩, emptyChat)

/-- `BotStorage.clear_chat` (bot.py 74-80). -/
def clear_chat (s : Store) (c : ChatId) : Store :=
  ⟨dictSet s.chats c emptyChat⟩

/-- `BotStorage.add_poll` (bot.py 82-86). -/
def add_poll (s : Store) (c : ChatId) (r : PollResult) : Store :=
  let sc := get_chat s c
  ⟨dictSet sc.1.chats c { sc.2 with polls := sc.2.polls ++ [r] }⟩

/-- `BotStorage.set_active_poll` (bot.py 88-92). -/
def set_active_poll (s : Store) (c : ChatId) (p : Option PollRecord) : Store :=
  let sc := get_chat s c
  ⟨dictSet sc.1.chats c { sc.2 with active_poll := p }⟩

/-- `BotStorage.get_code_history` (bot.py 94-97):
`[poll["winner"] for poll in chat["polls"] if poll.get("winner")]`.
An empty `winner` string is falsy, hence skipped. -/
def get_code_history (s : Store) (c : ChatId) : Store × List String :=
  let sc := get_chat s c
  (sc.1, sc.2.polls.filterMap fun r => if r.winner ≠ "" then some r.winner else none)

/-- Read-only view of a chat (default value for a chat never touched). -/
def viewChat (s : Store) (c : ChatId) : Chat :=
  (dictGet s.chats c).getD emptyChat

def activeOf (s : Store) (c : ChatId) : Option PollRecord :=
  (viewChat s c).active_poll

def pollsOf (s : Store) (c : ChatId) : List PollResult :=
  (viewChat s c).polls

/-- The committed line history of a chat, as derived by `get_code_history`. -/
def codeHistory (s : Store) (c : ChatId) : List String :=
  (pollsOf s c).filterMap fun r => if r.winner ≠ "" then some r.winner else none

/-! ## The generation adapter (`generate_code_options`, bot.py 122-188) -/

/-- Python `str.strip()` on the character list: drop trailing, then leading
whitespace (order is immaterial; this order makes the head property direct). -/
def stripChars (l : List Char) : List Char :=
  (((l.reverse).dropWhile Char.isWhitespace).reverse).dropWhile Char.isWhitespace

def pyStrip (s : String) : String := ⟨stripChars s.data⟩

/-- `line.startswith('```')` (bot.py 174). -/
def startsWithTicks (l : String) : Bool :=
  List.isPrefixOf "```".data l.data

/-- Fallback options for an empty history (bot.py 158-163). -/
def fallbackStart : List String :=
  ["# Simple Python program", "import sys", "def main():", "if __name__ == \x27__main__\x27:"]

/-- Fallback options for a non-empty history (bot.py 165-170). -/
def fallbackNext : List String :=
  ["    pass", "    # TODO: implement", "    return None", "    print(\x27Done\x27)"]

/-- The placeholder line `f"    # Option {len(unique_lines) + 1}"` (bot.py 186). -/
def padOption (n : Nat) : String := "    # Option " ++ toString n

/-- The dedup loop (bot.py 177-182): append unseen lines, stop at four. -/
def dedupeTake4 : List String → List String → List String
  | [], acc => acc
  | l :: t, acc =>
    let acc' := if l ∈ acc then acc else acc ++ [l]
    if acc'.length = 4 then acc' else dedupeTake4 t acc'

/-- The `while len(unique_lines) < 4` padding loop (bot.py 185-186).  Every
pass appends exactly one line, so four passes always reach the exit condition;
the first argument is that pass budget. -/
def padTo4 : Nat → List String → List String
  | 0, l => l
  | n + 1, l => if l.length < 4 then padTo4 n (l ++ [padOption (l.length + 1)]) else l

/-- `generate_code_options` (bot.py 122-188).  The raw LLM reply is the
`response` argument; `call_llm` returns `""` on any backend failure
(bot.py 113-120), which selects the hard-coded fallback options. -/
def generate_code_options (code_history : List String) (response : String) : List String :=
  if response = "" then
    if code_history = [] then fallbackStart else fallbackNext
  else
    let lines0 := ((response.splitOn "\n").map pyStrip).filter fun l => l != ""
    let lines1 := lines0.filter fun l => !startsWithTicks l && decide (l.length ≤ 95)
    (padTo4 4 (dedupeTake4 lines1 [])).take 4

/-! ## Vote ingestion (`poll_answer_handler`, bot.py 533-553) -/

/-- `if option_id in active_poll["votes"]: active_poll["votes"][option_id] += 1`
(bot.py 545-546): bump an existing key in place, ignore an unknown key. -/
def bumpVote : List (Nat × Nat) → Nat → List (Nat × Nat)
  | [], _ => []
  | (k, v) :: t, oid => if k = oid then (k, v + 1) :: t else (k, v) :: bumpVote t oid

/-- The `for option_id in poll_answer.option_ids` loop (bot.py 544-546). -/
def incVotes (votes : List (Nat × Nat)) (optionIds : List Nat) : List (Nat × Nat) :=
  optionIds.foldl bumpVote votes

/-- The chat scan of `poll_answer_handler` (bot.py 540-550): find the first
chat whose active poll carries this poll id, bump its counters, `break`. -/
def scanVote : List (ChatId × Chat) → PollId → List Nat → List (ChatId × Chat)
  | [], _, _ => []
  | (c, ch) :: t, pid, opts =>
    match ch.active_poll with
    | some p =>
      if p.poll_id = pid then
        (c, { ch with active_poll := some { p with votes := incVotes p.votes opts } }) :: t
      else (c, ch) :: scanVote t pid opts
    | none => (c, ch) :: scanVote t pid opts

def poll_answer_handler (s : Store) (pid : PollId) (optionIds : List Nat) : Store :=
  ⟨scanVote s.chats pid optionIds⟩

/-! ## Closing (`close_poll`, bot.py 563-623) -/

/-- Python `max(votes, key=votes.get)` over the insertion-ordered dict: the
running best is replaced only on a strictly greater count, so among tied
maxima the earliest (lowest-index) key wins. -/
def pyMaxKey (l : List (Nat × Nat)) : Option Nat :=
  (l.foldl (fun acc kv =>
    match acc with
    | none => some kv
    | some best => if kv.2 > best.2 then some kv else some best) none).map Prod.fst

/-- Environment data consumed when a poll is opened: the gateway-issued poll
and message ids, the raw LLM reply and the current time. -/
structure PollInput where
  poll_id : PollId
  message_id : Nat
  response : String
  now : Nat
deriving DecidableEq

/-- Default of the `POLL_TIMEOUT` configuration (bot.py 37). -/
def POLL_TIMEOUT : Nat := 300

/-- `{i: 0 for i in range(4)}` (bot.py 514). -/
def initVotes : List (Nat × Nat) := [(0, 0), (1, 0), (2, 0), (3, 0)]

/-- `send_poll` (bot.py 488-528): read the history, generate the four options
and install the active poll record. -/
def send_poll (s : Store) (c : ChatId) (inp : PollInput) : Store :=
  let sh := get_code_history s c
  let options := generate_code_options sh.2 inp.response
  set_active_poll sh.1 c (some
    { poll_id := inp.poll_id
      message_id := inp.message_id
      options := options
      votes := initVotes
      close_time := inp.now + POLL_TIMEOUT
      created_at := inp.now })

/-- Store plus the log of poll-result announcements sent through the gateway
(`context.bot.send_message`, bot.py 608); each entry is the chat id and the
announced winning line. -/
structure Sys where
  store : Store
  sent : List (ChatId × String)
deriving DecidableEq

/-- `close_poll` (bot.py 563-623) up to the `await asyncio.sleep(5)`.  The
returned flag records whether the post-sleep auto-chain continuation
(`settle_and_chain` below) runs, i.e. the close succeeded and `flag_stop`
was not set.  The two impossible-index paths mirror the exceptions Python
would raise (caught at bot.py 622, leaving the storage untouched). -/
def close_poll (s : Sys) (c : ChatId) (pid : PollId) (now : Nat) (flag_stop : Bool) :
    Sys × Bool :=
  let sc := get_chat s.store c
  match sc.2.active_poll with
  | none => (⟨sc.1, s.sent⟩, false)
  | some p =>
    if p.poll_id ≠ pid then (⟨sc.1, s.sent⟩, false)
    else
      match pyMaxKey p.votes with
      | none => (⟨sc.1, s.sent⟩, false)
      | some wi =>
        match p.options.get? wi with
        | none => (⟨sc.1, s.sent⟩, false)
        | some winner_line =>
          let res : PollResult :=
            { poll_id := pid, options := p.options, votes := p.votes,
              winner := winner_line, winner_index := wi, closed_at := now }
          let s2 := add_poll sc.1 c res
          let s3 := set_active_poll s2 c none
          (⟨s3, s.sent ++ [(c, winner_line)]⟩, !flag_stop)

/-- The tail of `close_poll` after the five-second settle delay
(bot.py 615-620): re-check that no poll is active and only then open one. -/
def settle_and_chain (s : Sys) (c : ChatId) (inp : PollInput) : Sys :=
  let sc := get_chat s.store c
  match sc.2.active_poll with
  | some _ => ⟨sc.1, s.sent⟩
  | none => ⟨send_poll sc.1 c inp, s.sent⟩

/-- `sendnow_command` (bot.py 388-407): refuse if a poll is active, otherwise
send one. -/
def sendnow_command (s : Sys) (c : ChatId) (inp : PollInput) : Sys :=
  let sc := get_chat s.store c
  match sc.2.active_poll with
  | some _ => ⟨sc.1, s.sent⟩
  | none => ⟨send_poll sc.1 c inp, s.sent⟩

/-- The admin path of `start_command` (bot.py 247-303): read the history
(lazily creating the chat), hand the completion to the gateway (external),
clear the chat, send the first poll. -/
def start_command (s : Sys) (c : ChatId) (inp : PollInput) : Sys :=
  let sh := get_code_history s.store c
  let s2 := clear_chat sh.1 c
  ⟨send_poll s2 c inp, s.sent⟩

/-! ## Event model -/

/-- The externally triggered operations on the storage.  `closeTimer` is the
close handler (timer callback or a manual trigger, with its `flag_stop`);
`settle` is the auto-chain continuation that resumes after the five-second
sleep inside `close_poll`. -/
inductive Ev where
  | sendnow (c : ChatId) (inp : PollInput)
  | start (c : ChatId) (inp : PollInput)
  | vote (pid : PollId) (optionIds : List Nat)
  | closeTimer (c : ChatId) (pid : PollId) (now : Nat) (flag_stop : Bool)
  | settle (c : ChatId) (inp : PollInput)
deriving DecidableEq

def step (s : Sys) : Ev → Sys
  | .sendnow c inp => sendnow_command s c inp
  | .start c inp => start_command s c inp
  | .vote pid opts => ⟨poll_answer_handler s.store pid opts, s.sent⟩
  | .closeTimer c pid now fs => (close_poll s c pid now fs).1
  | .settle c inp => settle_and_chain s c inp

/-- Fresh storage (`{"chats": {}}`, bot.py 54). -/
def init : Sys := ⟨⟨[]⟩, []⟩

/-- States reachable from a fresh storage by any sequence of operations. -/
inductive Reachable : Sys → Prop where
  | init : Reachable init
  | step : ∀ {s} (e : Ev), Reachable s → Reachable (step s e)

/-- The store state at the instant `send_poll` writes the new active poll
(i.e. the store handed to the final `dictSet` inside `set_active_poll`,
bot.py 518/91), for the events that reach that write; `none` for the others. -/
def installSnap (s : Sys) : Ev → Option (ChatId × Store)
  | .sendnow c _ =>
    let sc := get_chat s.store c
    match sc.2.active_poll with
    | some _ => none
    | none => some (c, (get_chat (get_code_history sc.1 c).1 c).1)
  | .start c _ =>
    let sh := get_code_history s.store c
    let s2 := clear_chat sh.1 c
    some (c, (get_chat (get_code_history s2 c).1 c).1)
  | .vote _ _ => none
  | .closeTimer _ _ _ _ => none
  | .settle c _ =>
    let sc := get_chat s.store c
    match sc.2.active_poll with
    | some _ => none
    | none => some (c, (get_chat (get_code_history sc.1 c).1 c).1)

/-! ## Structural invariant -/

/-- Shape invariant of every installed poll record: the votes dict has exactly
the keys 0,1,2,3 in insertion order, and the options are four distinct
non-empty lines of at most 95 characters. -/
def WFRecord (p : PollRecord) : Prop :=
  (∃ a b c d, p.votes = [(0, a), (1, b), (2, c), (3, d)]) ∧
  p.options.length = 4 ∧ p.options.Nodup ∧ ∀ o ∈ p.options, o ≠ "" ∧ o.length ≤ 95

/-- Storage invariant: chat keys are unique and every active poll record is
well-formed. -/
def WFStore (s : Store) : Prop :=
  (s.chats.map Prod.fst).Nodup ∧
  ∀ e ∈ s.chats, ∀ p, e.2.active_poll = some p → WFRecord p

/-! ## Serialization model (`BotStorage.save`/`load`, bot.py 46-62)

`save` is `json.dump(self.data)` and `load` is `json.load`.  JSON object keys
are strings, so `json.dump` renders the int keys of a `votes` dict as decimal
strings, and `json.load` hands them back as strings.  A Python dict key is
either an int or a str, and `0 == "0"` is `False` in Python, which the
two-constructor key type below models. -/

/-- A Python dict key as it can appear in the storage: an int or a str. -/
inductive JKey where
  | int : Nat → JKey
  | str : String → JKey
deriving DecidableEq

/-- A poll record as it comes back from `json.load`: the votes keys are the
decimal strings produced by `json.dump`. -/
structure LoadedPollRecord where
  poll_id : PollId
  message_id : Nat
  options : List String
  votes : List (JKey × Nat)
  close_time : Nat
  created_at : Nat
deriving DecidableEq

structure LoadedPollResult where
  poll_id : PollId
  options : List String
  votes : List (JKey × Nat)
  winner : String
  winner_index : Nat
  closed_at : Nat
deriving DecidableEq

structure LoadedChat where
  polls : List LoadedPollResult
  active_poll : Option LoadedPollRecord
deriving DecidableEq

/-- The in-memory votes dict, with its int keys made explicit. -/
def memVotes (v : List (Nat × Nat)) : List (JKey × Nat) :=
  v.map fun kv => (.int kv.1, kv.2)

/-- What one save/load cycle does to a votes dict: `json.dump` writes each int
key `k` as the object key `str(k)`, and `json.load` returns it as a string. -/
def dumpLoadVotes (v : List (Nat × Nat)) : List (JKey × Nat) :=
  v.map fun kv => (.str (toString kv.1), kv.2)

def save_load_record (p : PollRecord) : LoadedPollRecord :=
  { poll_id := p.poll_id, message_id := p.message_id, options := p.options,
    votes := dumpLoadVotes p.votes, close_time := p.close_time,
    created_at := p.created_at }

def save_load_result (r : PollResult) : LoadedPollResult :=
  { poll_id := r.poll_id, options := r.options, votes := dumpLoadVotes r.votes,
    winner := r.winner, winner_index := r.winner_index, closed_at := r.closed_at }

/-- One save/load cycle applied to a chat session. -/
def save_load_chat (ch : Chat) : LoadedChat :=
  { polls := ch.polls.map save_load_result,
    active_poll := ch.active_poll.map save_load_record }

/-- Python `==` on two dicts: same number of keys and every key/value pair of
the first is found in the second. -/
def pyDictEq (a b : List (JKey × Nat)) : Prop :=
  a.length = b.length ∧ ∀ kv ∈ a, dictGet b kv.1 = some kv.2

instance (a b : List (JKey × Nat)) : Decidable (pyDictEq a b) := by
  unfold pyDictEq
  exact inferInstance

/-- Field-for-field comparison (Python `==`) of an in-memory poll record with
a re-loaded one. -/
def recordEqPy (p : PollRecord) (q : LoadedPollRecord) : Prop :=
  p.poll_id = q.poll_id ∧ p.message_id = q.message_id ∧ p.options = q.options ∧
  pyDictEq (memVotes p.votes) q.votes ∧ p.close_time = q.close_time ∧
  p.created_at = q.created_at

def resultEqPy (r : PollResult) (q : LoadedPollResult) : Prop :=
  r.poll_id = q.poll_id ∧ r.options = q.options ∧
  pyDictEq (memVotes r.votes) q.votes ∧ r.winner = q.winner ∧
  r.winner_index = q.winner_index ∧ r.closed_at = q.closed_at

/-- Field-for-field comparison of an in-memory chat session with its
re-loaded form. -/
def chatEqPy (ch : Chat) (lc : LoadedChat) : Prop :=
  List.Forall₂ resultEqPy ch.polls lc.polls ∧
  match ch.active_poll, lc.active_poll with
  | none, none => True
  | some p, some q => recordEqPy p q
  | _, _ => False

/-! ## Concrete fixtures used by the witness theorems -/

/-- A well-formed active poll with the spec's example votes `{0:3,1:3,2:1,3:0}`. -/
def P0 : PollRecord :=
  { poll_id := "p1", message_id := 10, options := ["a", "b", "c", "d"],
    votes := [(0, 3), (1, 3), (2, 1), (3, 0)], close_time := 300, created_at := 0 }

/-- One archived result with a non-empty winner. -/
def R0 : PollResult :=
  { poll_id := "p0", options := ["a", "b", "c", "d"],
    votes := [(0, 2), (1, 1), (2, 0), (3, 0)], winner := "a", winner_index := 0,
    closed_at := 5 }

/-- A system with one chat `"1"` holding the active poll `P0`. -/
def S0 : Sys := ⟨⟨[("1", ⟨[R0], some P0⟩)]⟩, []⟩

/-- A system with one chat `"1"` and no active poll. -/
def SNone : Sys := ⟨⟨[("1", ⟨[R0], none⟩)]⟩, []⟩

/-- Poll-open input whose LLM reply is empty (backend failure path). -/
def inp0 : PollInput := { poll_id := "p1", message_id := 10, response := "", now := 0 }

/-- The poll record that `step init (.sendnow "1" inp0)` installs. -/
def P1 : PollRecord :=
  { poll_id := "p1", message_id := 10, options := fallbackStart, votes := initVotes,
    close_time := 300, created_at := 0 }

/-- A reachable state with an active poll: one force-send from a fresh store. -/
def S1 : Sys := step init (.sendnow "1" inp0)

/-! ## Association-list lemmas -/

section Dict

variable {α β : Type} [DecidableEq α]

theorem dictGet_append_of_none {l : List (α × β)} {k : α} (m : List (α × β))
    (h : dictGet l k = none) : dictGet (l ++ m) k = dictGet m k := by
  induction l with
  | nil => rfl
  | cons e t ih =>
    obtain ⟨k', v'⟩ := e
    by_cases hk : k' = k
    · simp [dictGet, hk] at h
    · simpa [dictGet, hk] using ih (by simpa [dictGet, hk] using h)

theorem dictGet_append_of_some {l : List (α × β)} {k : α} {v : β} (m : List (α × β))
    (h : dictGet l k = some v) : dictGet (l ++ m) k = some v := by
  induction l with
  | nil => simp [dictGet] at h
  | cons e t ih =>
    obtain ⟨k', v'⟩ := e
    by_cases hk : k' = k
    · simpa [dictGet, hk] using by simpa [dictGet, hk] using h
    · simpa [dictGet, hk] using ih (by simpa [dictGet, hk] using h)

theorem dictGet_eq_none_iff {l : List (α × β)} {k : α} :
    dictGet l k = none ↔ k ∉ l.map Prod.fst := by
  induction l with
  | nil => simp [dictGet]
  | cons e t ih =>
    obtain ⟨k', v'⟩ := e
    by_cases hk : k' = k <;> simp [dictGet, hk, ih, eq_comm (a := k) (b := k')]

theorem dictGet_mem {l : List (α × β)} {k : α} {v : β}
    (h : dictGet l k = some v) : (k, v) ∈ l := by
  induction l with
  | nil => simp [dictGet] at h
  | cons e t ih =>
    obtain ⟨k', v'⟩ := e
    by_cases hk : k' = k
    · simp [dictGet, hk] at h
      simp [hk, h]
    · simp [dictGet, hk] at h
      exact List.mem_cons_of_mem _ (ih h)

@[simp] theorem dictGet_dictSet_self (l : List (α × β)) (k : α) (v : β) :
    dictGet (dictSet l k v) k = some v := by
  induction l with
  | nil => simp [dictGet, dictSet]
  | cons e t ih =>
    obtain ⟨k', v'⟩ := e
    by_cases hk : k' = k <;> simp [dictGet, dictSet, hk, ih]

theorem dictGet_dictSet_ne (l : List (α × β)) {k k' : α} (v : β) (h : k' ≠ k) :
    dictGet (dictSet l k v) k' = dictGet l k' := by
  have h' : k ≠ k' := Ne.symm h
  induction l with
  | nil => simp [dictGet, dictSet, h']
  | cons e t ih =>
    obtain ⟨k'', v''⟩ := e
    by_cases hk : k'' = k
    · subst hk
      simp [dictGet, dictSet, h']
    · by_cases hk' : k'' = k' <;> simp [dictGet, dictSet, hk, hk', h, ih]

theorem map_fst_dictSet_of_some {l : List (α × β)} {k : α} {w : β} (v : β)
    (h : dictGet l k = some w) : (dictSet l k v).map Prod.fst = l.map Prod.fst := by
  induction l with
  | nil => simp [dictGet] at h
  | cons e t ih =>
    obtain ⟨k', v'⟩ := e
    by_cases hk : k' = k
    · simp [dictSet, hk]
    · simp [dictGet, hk] at h
      simp [dictSet, hk, ih h]

theorem map_fst_dictSet_of_none {l : List (α × β)} {k : α} (v : β)
    (h : dictGet l k = none) : (dictSet l k v).map Prod.fst = l.map Prod.fst ++ [k] := by
  induction l with
  | nil => simp [dictSet]
  | cons e t ih =>
    obtain ⟨k', v'⟩ := e
    by_cases hk : k' = k
    · simp [dictGet, hk] at h
    · simp [dictGet, hk] at h
      simp [dictSet, hk, ih h]

theorem mem_dictSet {l : List (α × β)} {k : α} {v : β} {e : α × β}
    (h : e ∈ dictSet l k v) : e = (k, v) ∨ e ∈ l := by
  induction l with
  | nil => simpa [dictSet] using h
  | cons e' t ih =>
    obtain ⟨k', v'⟩ := e'
    by_cases hk : k' = k
    · simp [dictSet, hk] at h
      rcases h with h | h
      · exact Or.inl h
      · exact Or.inr (List.mem_cons_of_mem _ h)
    · simp [dictSet, hk] at h
      rcases h with h | h
      · exact Or.inr (by simp [h])
      · rcases ih h with h' | h'
        · exact Or.inl h'
        · exact Or.inr (List.mem_cons_of_mem _ h')

end Dict

/-! ## Storage-operation lemmas -/

theorem get_chat_snd (s : Store) (c : ChatId) : (get_chat s c).2 = viewChat s c := by
  unfold get_chat viewChat
  cases h : dictGet s.chats c <;> simp [h]

theorem get_chat_of_some {s : Store} {c : ChatId} {ch : Chat}
    (h : dictGet s.chats c = some ch) : get_chat s c = (s, ch) := by
  simp [get_chat, h]

theorem get_chat_of_none {s : Store} {c : ChatId}
    (h : dictGet s.chats c = none) :
    get_chat s c = (⟨s.chats ++ [(c, emptyChat)]⟩, emptyChat) := by
  simp [get_chat, h]

theorem dictGet_get_chat_self (s : Store) (c : ChatId) :
    dictGet (get_chat s c).1.chats c = some (viewChat s c) := by
  cases h : dictGet s.chats c with
  | some ch => rw [get_chat_of_some h]; simp [viewChat, h]
  | none =>
    rw [get_chat_of_none h]
    dsimp only
    rw [dictGet_append_of_none _ h]
    simp [dictGet, viewChat, h]

theorem viewChat_get_chat (s : Store) (c c' : ChatId) :
    viewChat (get_chat s c).1 c' = viewChat s c' := by
  unfold get_chat
  cases h : dictGet s.chats c with
  | some ch => simp
  | none =>
    by_cases hc : c' = c
    · subst hc
      simp [viewChat, h, dictGet_append_of_none _ h, dictGet]
    · have hc' : c ≠ c' := Ne.symm hc
      unfold viewChat
      cases h' : dictGet s.chats c' with
      | some ch' => simp [dictGet_append_of_some _ h']
      | none => simp [dictGet_append_of_none _ h', dictGet, hc', h']

theorem viewChat_dictSet_self (s : Store) (c : ChatId) (ch : Chat) :
    viewChat ⟨dictSet s.chats c ch⟩ c = ch := by
  simp [viewChat]

theorem viewChat_dictSet_ne (s : Store) {c c' : ChatId} (ch : Chat)
    (h : c' ≠ c) : viewChat ⟨dictSet s.chats c ch⟩ c' = viewChat s c' := by
  simp [viewChat, dictGet_dictSet_ne _ _ h]

theorem viewChat_set_active_self (s : Store) (c : ChatId) (p : Option PollRecord) :
    viewChat (set_active_poll s c p) c = { viewChat s c with active_poll := p } := by
  unfold set_active_poll
  dsimp only
  rw [viewChat_dictSet_self, get_chat_snd]

theorem viewChat_set_active_ne (s : Store) {c c' : ChatId} (p : Option PollRecord)
    (h : c' ≠ c) : viewChat (set_active_poll s c p) c' = viewChat s c' := by
  unfold set_active_poll
  dsimp only
  rw [viewChat_dictSet_ne _ _ h, viewChat_get_chat]

theorem viewChat_add_poll_self (s : Store) (c : ChatId) (r : PollResult) :
    viewChat (add_poll s c r) c =
      { viewChat s c with polls := (viewChat s c).polls ++ [r] } := by
  unfold add_poll
  dsimp only
  rw [viewChat_dictSet_self, get_chat_snd]

theorem viewChat_add_poll_ne (s : Store) {c c' : ChatId} (r : PollResult)
    (h : c' ≠ c) : viewChat (add_poll s c r) c' = viewChat s c' := by
  unfold add_poll
  dsimp only
  rw [viewChat_dictSet_ne _ _ h, viewChat_get_chat]

theorem viewChat_clear_self (s : Store) (c : ChatId) :
    viewChat (clear_chat s c) c = emptyChat := by
  simp [clear_chat, viewChat]

theorem viewChat_clear_ne (s : Store) {c c' : ChatId} (h : c' ≠ c) :
    viewChat (clear_chat s c) c' = viewChat s c' := by
  unfold clear_chat
  exact viewChat_dictSet_ne s emptyChat h

theorem get_code_history_fst (s : Store) (c : ChatId) :
    (get_code_history s c).1 = (get_chat s c).1 := rfl

theorem get_code_history_snd (s : Store) (c : ChatId) :
    (get_code_history s c).2 = codeHistory s c := by
  simp [get_code_history, codeHistory, pollsOf, get_chat_snd]

/-! ## Generation-adapter lemmas -/

theorem dropWhile_head_false {α : Type} (p : α → Bool) :
    ∀ {l : List α} {c : α} {t : List α}, l.dropWhile p = c :: t → p c = false := by
  intro l
  induction l with
  | nil => intro c t h; simp [List.dropWhile] at h
  | cons a l ih =>
    intro c t h
    by_cases ha : p a
    · exact ih (by simpa [List.dropWhile, ha] using h)
    · rw [List.dropWhile_cons_of_neg ha] at h
      cases h
      simpa using ha

/-- A non-empty stripped line never starts with whitespace. -/
theorem pyStrip_head {s : String} {c : Char} {t : List Char}
    (h : (pyStrip s).data = c :: t) : c.isWhitespace = false :=
  dropWhile_head_false Char.isWhitespace h

/-- Every line surviving the strip/filter pipeline (bot.py 172-174) is
non-empty, at most 95 characters, and starts with a non-whitespace char. -/
theorem mem_pipeline {resp x : String}
    (hx : x ∈ (((resp.splitOn "\n").map pyStrip).filter fun l => l != "").filter
      fun l => !startsWithTicks l && decide (l.length ≤ 95)) :
    x ≠ "" ∧ x.length ≤ 95 ∧ ∀ c t, x.data = c :: t → c.isWhitespace = false := by
  rw [List.mem_filter] at hx
  obtain ⟨hx0, hx1⟩ := hx
  rw [List.mem_filter] at hx0
  obtain ⟨hx2, hx3⟩ := hx0
  rw [List.mem_map] at hx2
  obtain ⟨y, -, rfl⟩ := hx2
  refine ⟨by simpa using hx3, ?_, fun c t h => pyStrip_head h⟩
  have := (Bool.and_eq_true _ _).mp hx1
  simpa using this.2

/-- Invariant carried through the dedup loop. -/
theorem dedupeTake4_spec (P : String → Prop) :
    ∀ (l acc : List String), acc.Nodup → acc.length ≤ 3 → (∀ x ∈ acc, P x) →
      (∀ x ∈ l, P x) →
      (dedupeTake4 l acc).Nodup ∧ (dedupeTake4 l acc).length ≤ 4 ∧
        ∀ x ∈ dedupeTake4 l acc, P x := by
  intro l
  induction l with
  | nil =>
    intro acc h1 h2 h3 _
    exact ⟨h1, by simpa [dedupeTake4] using Nat.le_succ_of_le h2, by simpa [dedupeTake4] using h3⟩
  | cons a t ih =>
    intro acc h1 h2 h3 h4
    have hP : ∀ x ∈ (if a ∈ acc then acc else acc ++ [a]), P x := by
      intro x hx
      by_cases hm : a ∈ acc
      · exact h3 x (by simpa [hm] using hx)
      · rcases by simpa [hm] using hx with h | h
        · exact h3 x h
        · exact h ▸ h4 a (by simp)
    have hN : (if a ∈ acc then acc else acc ++ [a]).Nodup := by
      by_cases hm : a ∈ acc
      · simpa [hm] using h1
      · simp only [hm, if_false]
        rw [List.nodup_append]
        refine ⟨h1, List.nodup_singleton a, ?_⟩
        intro x hx hxa
        rw [List.mem_singleton] at hxa
        exact hm (hxa ▸ hx)
    have hL : (if a ∈ acc then acc else acc ++ [a]).length ≤ 4 := by
      by_cases hm : a ∈ acc
      · simp only [hm, if_true]; omega
      · simp only [hm, if_false, List.length_append, List.length_singleton]; omega
    rw [dedupeTake4]
    by_cases h4' : (if a ∈ acc then acc else acc ++ [a]).length = 4
    · simp only [h4', if_true]
      exact ⟨hN, by omega, hP⟩
    · simp only [h4', if_false]
      exact ih _ hN (by omega) hP (fun x hx => h4 x (List.mem_cons_of_mem _ hx))

theorem padOption_data (n : Nat) :
    (padOption n).data = ' ' :: ("   # Option ".data ++ (toString n).data) := by
  simp [padOption, String.data_append]

/-- A line that does not start with whitespace is never a padding line. -/
theorem padOption_notin {x : String} (n : Nat)
    (hx : ∀ c t, x.data = c :: t → c.isWhitespace = false) : x ≠ padOption n := by
  intro h
  have := hx ' ' ("   # Option ".data ++ (toString n).data) (by rw [h, padOption_data])
  simp [Char.isWhitespace] at this

theorem padOption_inj : ∀ i < 5, ∀ j < 5, padOption i = padOption j → i = j := by
  decide

theorem padOption_good : ∀ i < 5, padOption i ≠ "" ∧ (padOption i).length ≤ 95 := by
  decide

/-- Invariant of the padding loop: no padding line with an index beyond the
current length is present yet. -/
def PadInv (l : List String) : Prop :=
  l.Nodup ∧ ∀ i ≤ 4, padOption i ∈ l → i ≤ l.length

theorem padTo4_spec : ∀ (n : Nat) (l : List String), PadInv l → 4 ≤ n + l.length →
    (padTo4 n l).Nodup ∧ 4 ≤ (padTo4 n l).length ∧
      (l.length ≤ 4 → (padTo4 n l).length = 4) ∧
      ∀ x ∈ padTo4 n l, x ∈ l ∨ ∃ i, i ≤ 4 ∧ x = padOption i := by
  intro n
  induction n with
  | zero =>
    intro l hinv hn
    simp only [Nat.zero_add] at hn
    exact ⟨hinv.1, by simpa [padTo4] using hn, by simp [padTo4]; omega,
      by simp [padTo4]; intro x hx; exact Or.inl hx⟩
  | succ n ih =>
    intro l hinv hn
    rw [padTo4]
    by_cases hlt : l.length < 4
    · simp only [hlt, if_true]
      have hnotin : padOption (l.length + 1) ∉ l := by
        intro hmem
        have := hinv.2 (l.length + 1) (by omega) hmem
        omega
      have hinv' : PadInv (l ++ [padOption (l.length + 1)]) := by
        constructor
        · rw [List.nodup_append]
          refine ⟨hinv.1, List.nodup_singleton _, ?_⟩
          intro x hx hxe
          rw [List.mem_singleton] at hxe
          exact hnotin (hxe ▸ hx)
        · intro i hi hmem
          rcases List.mem_append.mp hmem with h | h
          · have := hinv.2 i hi h
            simp only [List.length_append, List.length_singleton]
            omega
          · have heq : padOption i = padOption (l.length + 1) := by simpa using h
            have : i = l.length + 1 :=
              padOption_inj i (by omega) (l.length + 1) (by omega) heq
            simp only [List.length_append, List.length_singleton]
            omega
      obtain ⟨r1, r2, r3, r4⟩ := ih _ hinv' (by simp; omega)
      refine ⟨r1, r2, fun _ => r3 (by simp; omega), fun x hx => ?_⟩
      rcases r4 x hx with h | h
      · rcases List.mem_append.mp h with h' | h'
        · exact Or.inl h'
        · exact Or.inr ⟨l.length + 1, by omega, by simpa using h'⟩
      · exact Or.inr h
    · simp only [hlt, if_false]
      exact ⟨hinv.1, by omega, by omega, fun x hx => Or.inl hx⟩

/-- The central adapter contract: `generate_code_options` always returns
exactly four pairwise-distinct non-empty lines of at most 95 characters,
whatever the history and whatever the LLM reply. -/
theorem gco_spec (h : List String) (resp : String) :
    (generate_code_options h resp).length = 4 ∧ (generate_code_options h resp).Nodup ∧
      ∀ x ∈ generate_code_options h resp, x ≠ "" ∧ x.length ≤ 95 := by
  rw [generate_code_options]
  by_cases hr : resp = ""
  · simp only [hr, if_true]
    by_cases hh : h = [] <;> simp [hh, fallbackStart, fallbackNext] <;> decide
  · simp only [hr, if_false]
    set lines1 := (((resp.splitOn "\n").map pyStrip).filter fun l => l != "").filter
      (fun l => !startsWithTicks l && decide (l.length ≤ 95)) with hl1
    have hgood : ∀ x ∈ lines1, x ≠ "" ∧ x.length ≤ 95 ∧
        ∀ c t, x.data = c :: t → c.isWhitespace = false := fun x hx => mem_pipeline (hl1 ▸ hx)
    obtain ⟨d1, d2, d3⟩ := dedupeTake4_spec
      (fun x => x ≠ "" ∧ x.length ≤ 95 ∧ ∀ c t, x.data = c :: t → c.isWhitespace = false)
      lines1 [] (List.nodup_nil) (by simp) (by simp) hgood
    have hinv : PadInv (dedupeTake4 lines1 []) := by
      refine ⟨d1, fun i hi hmem => ?_⟩
      exact absurd rfl (padOption_notin i (d3 _ hmem).2.2)
    obtain ⟨p1, p2, p3, p4⟩ := padTo4_spec 4 _ hinv (by omega)
    have hlen4 : (padTo4 4 (dedupeTake4 lines1 [])).length = 4 := p3 d2
    refine ⟨?_, List.Sublist.nodup (List.take_sublist _ _) p1, ?_⟩
    · simp [List.length_take, hlen4]
    · intro x hx
      rcases p4 x (List.take_subset _ _ hx) with hmem | ⟨i, hi, rfl⟩
      · exact ⟨(d3 x hmem).1, (d3 x hmem).2.1⟩
      · exact padOption_good i (by omega)

/-! ## Vote-ingestion lemmas -/

theorem bumpVote_canon (a b c d oid : Nat) :
    bumpVote [(0, a), (1, b), (2, c), (3, d)] oid =
      [(0, a + if 0 = oid then 1 else 0), (1, b + if 1 = oid then 1 else 0),
       (2, c + if 2 = oid then 1 else 0), (3, d + if 3 = oid then 1 else 0)] := by
  simp only [bumpVote]
  split_ifs <;> simp_all <;> omega

theorem incVotes_canon (opts : List Nat) : ∀ a b c d : Nat,
    incVotes [(0, a), (1, b), (2, c), (3, d)] opts =
      [(0, a + opts.count 0), (1, b + opts.count 1),
       (2, c + opts.count 2), (3, d + opts.count 3)] := by
  induction opts with
  | nil => intro a b c d; simp [incVotes]
  | cons o t ih =>
    intro a b c d
    show incVotes (bumpVote [(0, a), (1, b), (2, c), (3, d)] o) t = _
    rw [bumpVote_canon, ih]
    simp only [List.count_cons, List.cons.injEq, Prod.mk.injEq, and_true, true_and]
    refine ⟨?_, ?_, ?_, ?_⟩ <;> (split_ifs <;> (simp_all; try omega))

theorem scanVote_no_match :
    ∀ (l : List (ChatId × Chat)) (pid : PollId) (opts : List Nat),
      (∀ e ∈ l, ∀ p, e.2.active_poll = some p → p.poll_id ≠ pid) →
      scanVote l pid opts = l := by
  intro l pid opts
  induction l with
  | nil => intro _; rfl
  | cons e t ih =>
    intro h
    obtain ⟨c, ch⟩ := e
    rw [scanVote]
    cases hap : ch.active_poll with
    | none => rw [ih fun e he => h e (List.mem_cons_of_mem _ he)]
    | some p =>
      have hne : p.poll_id ≠ pid := h (c, ch) (by simp) p hap
      simp only [hne, if_false]
      rw [ih fun e he => h e (List.mem_cons_of_mem _ he)]

theorem scanVote_found :
    ∀ (pre : List (ChatId × Chat)) (c : ChatId) (ch : Chat) (post : List (ChatId × Chat))
      (pid : PollId) (opts : List Nat) (p : PollRecord),
      (∀ e ∈ pre, ∀ q, e.2.active_poll = some q → q.poll_id ≠ pid) →
      ch.active_poll = some p → p.poll_id = pid →
      scanVote (pre ++ (c, ch) :: post) pid opts =
        pre ++ (c, { ch with active_poll := some { p with votes := incVotes p.votes opts } }) :: post := by
  intro pre
  induction pre with
  | nil =>
    intro c ch post pid opts p _ hap hid
    simp only [List.nil_append, scanVote, hap, hid, if_true]
  | cons e t ih =>
    intro c ch post pid opts p hpre hap hid
    obtain ⟨c', ch'⟩ := e
    rw [List.cons_append, scanVote]
    cases hap' : ch'.active_poll with
    | none =>
      rw [ih c ch post pid opts p (fun e he => hpre e (List.mem_cons_of_mem _ he)) hap hid]
      simp
    | some q =>
      have hne : q.poll_id ≠ pid := hpre (c', ch') (by simp) q hap'
      simp only [hne, if_false]
      rw [ih c ch post pid opts p (fun e he => hpre e (List.mem_cons_of_mem _ he)) hap hid]
      simp

/-! ## Winner-selection lemma -/

theorem pyMaxKey_canon (v0 v1 v2 v3 : Nat) :
    ∃ w, pyMaxKey [(0, v0), (1, v1), (2, v2), (3, v3)] = some w ∧ w < 4 ∧
      (∀ j, j < 4 → [v0, v1, v2, v3].getD j 0 ≤ [v0, v1, v2, v3].getD w 0) ∧
      ∀ j, j < w → [v0, v1, v2, v3].getD j 0 < [v0, v1, v2, v3].getD w 0 := by
  unfold pyMaxKey
  simp only [List.foldl]
  dsimp only
  split_ifs <;> dsimp only <;> split_ifs <;> dsimp only <;> split_ifs <;>
    refine ⟨_, rfl, ?_, ?_, ?_⟩ <;>
    first
    | omega
    | (intro j hj
       first
       | omega
       | (interval_cases j <;> simp [List.getD] <;> omega))

/-! ## Invariant preservation -/

theorem WF_viewChat {s : Store} (h : WFStore s) (c : ChatId) :
    ∀ p, (viewChat s c).active_poll = some p → WFRecord p := by
  intro p hp
  unfold viewChat at hp
  cases hd : dictGet s.chats c with
  | none => rw [hd] at hp; simp [emptyChat] at hp
  | some ch => exact h.2 (c, ch) (dictGet_mem hd) p (by rw [hd] at hp; simpa using hp)

theorem WFStore_get_chat {s : Store} (c : ChatId) (h : WFStore s) :
    WFStore (get_chat s c).1 := by
  cases hd : dictGet s.chats c with
  | some ch => rw [get_chat_of_some hd]; exact h
  | none =>
    rw [get_chat_of_none hd]
    refine ⟨?_, ?_⟩
    · simp only [List.map_append, List.map_cons, List.map_nil]
      rw [List.nodup_append]
      refine ⟨h.1, List.nodup_singleton _, ?_⟩
      intro x hx hxc
      rw [List.mem_singleton] at hxc
      exact (dictGet_eq_none_iff.mp hd) (hxc ▸ hx)
    · intro e he p hp
      rcases List.mem_append.mp he with he' | he'
      · exact h.2 e he' p hp
      · have : e = (c, emptyChat) := by simpa using he'
        rw [this] at hp
        simp [emptyChat] at hp

theorem WFStore_dictSet {s : Store} (c : ChatId) (ch : Chat) (h : WFStore s)
    (hch : ∀ p, ch.active_poll = some p → WFRecord p) :
    WFStore ⟨dictSet s.chats c ch⟩ := by
  refine ⟨?_, ?_⟩
  · cases hd : dictGet s.chats c with
    | some ch' => rw [map_fst_dictSet_of_some _ hd]; exact h.1
    | none =>
      rw [map_fst_dictSet_of_none _ hd]
      rw [List.nodup_append]
      refine ⟨h.1, List.nodup_singleton _, ?_⟩
      intro x hx hxc
      rw [List.mem_singleton] at hxc
      exact (dictGet_eq_none_iff.mp hd) (hxc ▸ hx)
  · intro e he p hp
    rcases mem_dictSet he with he' | he'
    · rw [he'] at hp; exact hch p hp
    · exact h.2 e he' p hp

theorem WFStore_set_active {s : Store} (c : ChatId) (p : Option PollRecord)
    (h : WFStore s) (hp : ∀ q, p = some q → WFRecord q) :
    WFStore (set_active_poll s c p) := by
  unfold set_active_poll
  dsimp only
  exact WFStore_dictSet c _ (WFStore_get_chat c h) (fun q hq => hp q hq)

theorem WFStore_add_poll {s : Store} (c : ChatId) (r : PollResult) (h : WFStore s) :
    WFStore (add_poll s c r) := by
  unfold add_poll
  dsimp only
  refine WFStore_dictSet c _ (WFStore_get_chat c h) ?_
  intro q hq
  rw [get_chat_snd] at hq
  exact WF_viewChat h c q hq

theorem WFStore_clear {s : Store} (c : ChatId) (h : WFStore s) :
    WFStore (clear_chat s c) := by
  unfold clear_chat
  exact WFStore_dictSet c _ h (by simp [emptyChat])

theorem WFRecord_new (hist : List String) (resp : String) (pid : PollId)
    (mid ct cr : Nat) :
    WFRecord { poll_id := pid, message_id := mid,
               options := generate_code_options hist resp, votes := initVotes,
               close_time := ct, created_at := cr } := by
  obtain ⟨g1, g2, g3⟩ := gco_spec hist resp
  exact ⟨⟨0, 0, 0, 0, rfl⟩, g1, g2, g3⟩

theorem WFStore_send_poll {s : Store} (c : ChatId) (inp : PollInput)
    (h : WFStore s) : WFStore (send_poll s c inp) := by
  unfold send_poll
  dsimp only
  refine WFStore_set_active c _ (by rw [get_code_history_fst]; exact WFStore_get_chat c h) ?_
  intro q hq
  cases hq
  exact WFRecord_new _ _ _ _ _ _

theorem map_fst_scanVote :
    ∀ (l : List (ChatId × Chat)) (pid : PollId) (opts : List Nat),
      (scanVote l pid opts).map Prod.fst = l.map Prod.fst := by
  intro l pid opts
  induction l with
  | nil => rfl
  | cons e t ih =>
    obtain ⟨c, ch⟩ := e
    rw [scanVote]
    cases hap : ch.active_poll with
    | none => simp [ih]
    | some p =>
      by_cases hid : p.poll_id = pid
      · simp [hid]
      · simp [hid, ih]

theorem WFRecord_incVotes {p : PollRecord} (opts : List Nat) (h : WFRecord p) :
    WFRecord { p with votes := incVotes p.votes opts } := by
  obtain ⟨⟨a, b, c, d, hv⟩, h2, h3, h4⟩ := h
  exact ⟨⟨a + opts.count 0, b + opts.count 1, c + opts.count 2, d + opts.count 3,
    by rw [hv, incVotes_canon]⟩, h2, h3, h4⟩

theorem WFStore_vote {s : Store} (pid : PollId) (opts : List Nat) (h : WFStore s) :
    WFStore (poll_answer_handler s pid opts) := by
  refine ⟨by rw [poll_answer_handler]; dsimp only; rw [map_fst_scanVote]; exact h.1, ?_⟩
  rw [poll_answer_handler]
  dsimp only
  have key : ∀ (l : List (ChatId × Chat)),
      (∀ e ∈ l, ∀ p, e.2.active_poll = some p → WFRecord p) →
      ∀ e ∈ scanVote l pid opts, ∀ p, e.2.active_poll = some p → WFRecord p := by
    intro l
    induction l with
    | nil => intro _ e he; simp [scanVote] at he
    | cons e' t ih =>
      intro hl e he p hp
      obtain ⟨c, ch⟩ := e'
      rw [scanVote] at he
      cases hap : ch.active_poll with
      | none =>
        rw [hap] at he
        rcases List.mem_cons.mp he with he' | he'
        · subst he'
          exact hl (c, ch) (by simp) p hp
        · exact ih (fun e he => hl e (List.mem_cons_of_mem _ he)) e he' p hp
      | some q =>
        rw [hap] at he
        by_cases hid : q.poll_id = pid
        · simp only [if_pos hid] at he
          rcases List.mem_cons.mp he with he' | he'
          · subst he'
            have hy : some { q with votes := incVotes q.votes opts } = some p := hp
            cases hy
            exact WFRecord_incVotes opts (hl (c, ch) (by simp) q hap)
          · exact hl e (List.mem_cons_of_mem _ he') p hp
        · simp only [if_neg hid] at he
          rcases List.mem_cons.mp he with he' | he'
          · subst he'
            exact hl (c, ch) (by simp) p hp
          · exact ih (fun e he => hl e (List.mem_cons_of_mem _ he)) e he' p hp
  exact key s.chats h.2

theorem WFStore_close (s : Sys) (c : ChatId) (pid : PollId) (now : Nat) (fs : Bool)
    (h : WFStore s.store) : WFStore (close_poll s c pid now fs).1.store := by
  unfold close_poll
  try dsimp only
  split
  · exact WFStore_get_chat c h
  · split
    · exact WFStore_get_chat c h
    · split
      · exact WFStore_get_chat c h
      · split
        · exact WFStore_get_chat c h
        · exact WFStore_set_active c none
            (WFStore_add_poll c _ (WFStore_get_chat c h)) (by simp)

theorem WFStore_step (s : Sys) (e : Ev) (h : WFStore s.store) :
    WFStore (step s e).store := by
  cases e with
  | sendnow c inp =>
    rw [step, sendnow_command]
    try dsimp only
    split
    · exact WFStore_get_chat c h
    · exact WFStore_send_poll c inp (WFStore_get_chat c h)
  | start c inp =>
    rw [step, start_command]
    try dsimp only
    refine WFStore_send_poll c inp (WFStore_clear c ?_)
    rw [get_code_history_fst]
    exact WFStore_get_chat c h
  | vote pid opts => exact WFStore_vote pid opts h
  | closeTimer c pid now fs => exact WFStore_close s c pid now fs h
  | settle c inp =>
    rw [step, settle_and_chain]
    try dsimp only
    split
    · exact WFStore_get_chat c h
    · exact WFStore_send_poll c inp (WFStore_get_chat c h)

theorem reachable_WF {s : Sys} (h : Reachable s) : WFStore s.store := by
  induction h with
  | init => exact ⟨List.nodup_nil, by simp [init]⟩
  | step e _ ih => exact WFStore_step _ e ih

/-! ## Lemmas about `close_poll` -/

theorem get_chat_of_active {s : Store} {c : ChatId} {p : PollRecord}
    (h : activeOf s c = some p) : get_chat s c = (s, viewChat s c) := by
  unfold activeOf viewChat at h
  cases hd : dictGet s.chats c with
  | none => rw [hd] at h; simp [emptyChat] at h
  | some ch => rw [get_chat_of_some hd]; unfold viewChat; rw [hd]; rfl

theorem WFRecord_of_active {s : Sys} {c : ChatId} {p : PollRecord}
    (hR : Reachable s) (h : activeOf s.store c = some p) : WFRecord p :=
  WF_viewChat (reachable_WF hR) c p h

theorem activeOf_set_active_self (s : Store) (c : ChatId) (p : Option PollRecord) :
    activeOf (set_active_poll s c p) c = p := by
  unfold activeOf
  rw [viewChat_set_active_self]

theorem dictGet_set_active_self (s : Store) (c : ChatId) (p : Option PollRecord) :
    dictGet (set_active_poll s c p).chats c =
      some { viewChat s c with active_poll := p } := by
  unfold set_active_poll
  dsimp only
  rw [dictGet_dictSet_self, get_chat_snd]

theorem pollsOf_set_active_self (s : Store) (c : ChatId) (p : Option PollRecord) :
    pollsOf (set_active_poll s c p) c = pollsOf s c := by
  unfold pollsOf
  rw [viewChat_set_active_self]

theorem pollsOf_add_poll_self (s : Store) (c : ChatId) (r : PollResult) :
    pollsOf (add_poll s c r) c = pollsOf s c ++ [r] := by
  unfold pollsOf
  rw [viewChat_add_poll_self]

theorem activeOf_add_poll_self (s : Store) (c : ChatId) (r : PollResult) :
    activeOf (add_poll s c r) c = activeOf s c := by
  unfold activeOf
  rw [viewChat_add_poll_self]

theorem codeHistory_add_poll (s : Store) (c : ChatId) (r : PollResult) :
    codeHistory (add_poll s c r) c =
      codeHistory s c ++ if r.winner ≠ "" then [r.winner] else [] := by
  unfold codeHistory
  rw [pollsOf_add_poll_self, List.filterMap_append]
  by_cases hw : r.winner = "" <;> simp [hw]

theorem codeHistory_set_active (s : Store) (c : ChatId) (p : Option PollRecord) :
    codeHistory (set_active_poll s c p) c = codeHistory s c := by
  unfold codeHistory
  rw [pollsOf_set_active_self]

theorem codeHistory_get_chat (s : Store) (c c' : ChatId) :
    codeHistory (get_chat s c).1 c' = codeHistory s c' := by
  unfold codeHistory pollsOf
  rw [viewChat_get_chat]

/-- The record `send_poll` installs for chat `c`: fresh zero votes, options
generated from the chat's current history and the LLM reply. -/
theorem activeOf_send_poll (s : Store) (c : ChatId) (inp : PollInput) :
    activeOf (send_poll s c inp) c =
      some { poll_id := inp.poll_id, message_id := inp.message_id,
             options := generate_code_options (codeHistory s c) inp.response,
             votes := initVotes, close_time := inp.now + POLL_TIMEOUT,
             created_at := inp.now } := by
  unfold send_poll
  dsimp only
  rw [activeOf_set_active_self, get_code_history_snd]

/-- The store at the installation instant inside `send_poll` still shows the
chat's pre-existing active poll. -/
theorem activeOf_install_point (s : Store) (c : ChatId) :
    activeOf (get_chat (get_code_history s c).1 c).1 c = activeOf s c := by
  unfold activeOf
  rw [viewChat_get_chat, get_code_history_fst, viewChat_get_chat]

/-- What a successful close does: with a matching active poll whose votes dict
has the canonical four keys, `close_poll` archives the winner, clears the
active poll, announces the result, and schedules the auto-chain exactly when
`flag_stop` is unset. -/
theorem close_poll_spec (s : Sys) (c : ChatId) (pid : PollId) (now : Nat) (fs : Bool)
    (p : PollRecord) (a b c2 d : Nat)
    (hp : activeOf s.store c = some p) (hid : p.poll_id = pid)
    (hv : p.votes = [(0, a), (1, b), (2, c2), (3, d)])
    (hlen : p.options.length = 4) :
    ∃ wi wline, pyMaxKey p.votes = some wi ∧ wi < 4 ∧
      p.options.get? wi = some wline ∧ wline ∈ p.options ∧
      close_poll s c pid now fs =
        (⟨set_active_poll (add_poll s.store c
            { poll_id := pid, options := p.options, votes := p.votes,
              winner := wline, winner_index := wi, closed_at := now }) c none,
          s.sent ++ [(c, wline)]⟩, !fs) := by
  obtain ⟨w, hmax, hw4, -, -⟩ := pyMaxKey_canon a b c2 d
  have hmax' : pyMaxKey p.votes = some w := by rw [hv]; exact hmax
  have hwlt : w < p.options.length := by rw [hlen]; exact hw4
  have hgl : p.options.get? w = some (p.options.get ⟨w, hwlt⟩) := List.get?_eq_get hwlt
  have hmem : p.options.get ⟨w, hwlt⟩ ∈ p.options := List.get_mem _ _ _
  refine ⟨w, _, hmax', hw4, hgl, hmem, ?_⟩
  unfold close_poll
  rw [get_chat_of_active hp]
  dsimp only
  rw [show (viewChat s.store c).active_poll = some p from hp]
  dsimp only
  rw [if_neg (by simp [hid]), hmax']
  dsimp only
  rw [hgl]

/-- A close for a poll id that is not the chat's current active poll is a
no-op (given the chat entry exists, so the lazy create does not fire). -/
theorem close_poll_stale (s : Sys) (c : ChatId) (pid : PollId) (now : Nat) (fs : Bool)
    {ch : Chat} (hch : dictGet s.store.chats c = some ch)
    (hstale : ∀ p, ch.active_poll = some p → p.poll_id ≠ pid) :
    close_poll s c pid now fs = (s, false) := by
  unfold close_poll
  rw [get_chat_of_some hch]
  dsimp only
  cases hap : ch.active_poll with
  | none => rfl
  | some p =>
    dsimp only
    rw [if_pos (hstale p hap)]

/-! ## Claims -/

/-- C1: When a poll is closed with a non-null active poll whose id matches,
the winner recorded in the archived result is the option index with the
maximum vote count, and ties are broken by the lowest option index; in
particular, for votes `{0:3,1:3,2:1,3:0}` the winner index is 0. -/
theorem claim1_winner_selection (s : Sys) (c : ChatId) (pid : PollId) (now : Nat)
    (fs : Bool) (p : PollRecord) (v0 v1 v2 v3 : Nat)
    (hp : activeOf s.store c = some p) (hid : p.poll_id = pid)
    (hv : p.votes = [(0, v0), (1, v1), (2, v2), (3, v3)])
    (hlen : p.options.length = 4) :
    (∃ w wline, p.options.get? w = some wline ∧
      pollsOf (close_poll s c pid now fs).1.store c =
        pollsOf s.store c ++ [{ poll_id := pid, options := p.options, votes := p.votes, winner := wline, winner_index := w, closed_at := now }] ∧
      w < 4 ∧
      (∀ j, j < 4 → [v0, v1, v2, v3].getD j 0 ≤ [v0, v1, v2, v3].getD w 0) ∧
      (∀ j, j < w → [v0, v1, v2, v3].getD j 0 < [v0, v1, v2, v3].getD w 0)) ∧
    pyMaxKey [(0, 3), (1, 3), (2, 1), (3, 0)] = some 0 := by
  obtain ⟨wi, wline, hmax, hwi4, hget, -, heq⟩ :=
    close_poll_spec s c pid now fs p v0 v1 v2 v3 hp hid hv hlen
  obtain ⟨w, hmax2, -, hmaxP, htieP⟩ := pyMaxKey_canon v0 v1 v2 v3
  have hww : w = wi := by
    rw [hv] at hmax
    rw [hmax] at hmax2
    exact (Option.some.inj hmax2).symm
  subst hww
  refine ⟨⟨w, wline, hget, ?_, hwi4, hmaxP, htieP⟩, by decide⟩
  rw [heq]
  dsimp only
  rw [pollsOf_set_active_self, pollsOf_add_poll_self]

/-- C2: For every chat and every reachable state, at most one `activePoll` is
non-null per chat (each chat id owns exactly one entry of the storage map, so
the chat-id keys are pairwise distinct), and whenever any operation installs a
new poll, the chat's `activePoll` is null at the instant of the installing
write (`installSnap` is the store passed to that write). -/
theorem claim2_single_active_guarded_open (s : Sys) (hR : Reachable s) :
    (s.store.chats.map Prod.fst).Nodup ∧
    ∀ e c σ, installSnap s e = some (c, σ) → activeOf σ c = none := by
  refine ⟨(reachable_WF hR).1, ?_⟩
  intro e c σ hsnap
  cases e with
  | sendnow c' inp =>
    rw [installSnap] at hsnap
    try dsimp only at hsnap
    cases hap : (get_chat s.store c').2.active_poll with
    | some p => rw [hap] at hsnap; cases hsnap
    | none =>
      rw [hap] at hsnap
      dsimp only at hsnap
      obtain ⟨rfl, rfl⟩ : c' = c ∧ _ = σ := by
        have := Option.some.inj hsnap
        exact ⟨congrArg Prod.fst this, congrArg Prod.snd this⟩
      rw [activeOf_install_point]
      unfold activeOf
      rw [viewChat_get_chat, ← get_chat_snd]
      exact hap
  | start c' inp =>
    rw [installSnap] at hsnap
    try dsimp only at hsnap
    obtain ⟨rfl, rfl⟩ : c' = c ∧ _ = σ := by
      have := Option.some.inj hsnap
      exact ⟨congrArg Prod.fst this, congrArg Prod.snd this⟩
    rw [activeOf_install_point]
    unfold activeOf
    rw [viewChat_clear_self]
    rfl
  | vote pid opts => cases hsnap
  | closeTimer c' pid now fs => cases hsnap
  | settle c' inp =>
    rw [installSnap] at hsnap
    try dsimp only at hsnap
    cases hap : (get_chat s.store c').2.active_poll with
    | some p => rw [hap] at hsnap; cases hsnap
    | none =>
      rw [hap] at hsnap
      dsimp only at hsnap
      obtain ⟨rfl, rfl⟩ : c' = c ∧ _ = σ := by
        have := Option.some.inj hsnap
        exact ⟨congrArg Prod.fst this, congrArg Prod.snd this⟩
      rw [activeOf_install_point]
      unfold activeOf
      rw [viewChat_get_chat, ← get_chat_snd]
      exact hap

/-- C2 witness: a force-send on the fresh store installs its poll with the
chat's `activePoll` null at the installing write. -/
theorem claim2_single_active_guarded_open_witness :
    activeOf ⟨[("1", emptyChat)]⟩ "1" = none :=
  (claim2_single_active_guarded_open init Reachable.init).2
    (.sendnow "1" inp0) "1" ⟨[("1", emptyChat)]⟩ (by decide)

/-- C3: For every input history and every LLM reply (including the empty reply
that models an unavailable or unusable backend), `generate_code_options`
returns exactly 4 pairwise-distinct non-empty strings, each at most 95
characters. -/
theorem claim3_four_distinct_options (hist : List String) (resp : String) :
    (generate_code_options hist resp).length = 4 ∧
    (generate_code_options hist resp).Nodup ∧
    ∀ x ∈ generate_code_options hist resp, x ≠ "" ∧ x.length ≤ 95 :=
  gco_spec hist resp

/-- C3 witness: the empty-history, failed-backend case. -/
theorem claim3_four_distinct_options_witness :
    (generate_code_options [] "").length = 4 ∧ "import sys" ∈ generate_code_options [] "" ∧
    "import sys" ≠ "" ∧ "import sys".length ≤ 95 :=
  ⟨(claim3_four_distinct_options [] "").1, by decide,
   ((claim3_four_distinct_options [] "").2.2 "import sys" (by decide)).1,
   ((claim3_four_distinct_options [] "").2.2 "import sys" (by decide)).2⟩

/-- C4: Closing is idempotent: after a successful close, a second close with
the same poll id is a complete no-op (state and announcement log unchanged,
no auto-chain), so two successive closes of one poll yield exactly one
archived `PollResult`, one history append, and one announcement. -/
theorem claim4_close_idempotent (s : Sys) (c : ChatId) (pid : PollId)
    (now now2 : Nat) (fs fs2 : Bool) (p : PollRecord)
    (hR : Reachable s) (hp : activeOf s.store c = some p) (hid : p.poll_id = pid) :
    close_poll (close_poll s c pid now fs).1 c pid now2 fs2 =
      ((close_poll s c pid now fs).1, false) ∧
    (pollsOf (close_poll s c pid now fs).1.store c).length =
      (pollsOf s.store c).length + 1 ∧
    (codeHistory (close_poll s c pid now fs).1.store c).length =
      (codeHistory s.store c).length + 1 ∧
    (close_poll s c pid now fs).1.sent.length = s.sent.length + 1 := by
  obtain ⟨⟨a, b, c2, d, hv⟩, hlen, -, hopts⟩ := WFRecord_of_active hR hp
  obtain ⟨wi, wline, -, -, -, hmem, heq⟩ :=
    close_poll_spec s c pid now fs p a b c2 d hp hid hv hlen
  have hwne : wline ≠ "" := (hopts wline hmem).1
  rw [heq]
  dsimp only
  refine ⟨?_, ?_, ?_, by simp⟩
  · refine close_poll_stale _ c pid now2 fs2 (dictGet_set_active_self _ c none) ?_
    intro q hq
    simp at hq
  · rw [pollsOf_set_active_self, pollsOf_add_poll_self]
    simp
  · rw [codeHistory_set_active, codeHistory_add_poll]
    simp [hwne]

/-- C4 witness: double close of the poll opened by one force-send. -/
theorem claim4_close_idempotent_witness :
    close_poll (close_poll S1 "1" "p1" 9 false).1 "1" "p1" 11 false =
      ((close_poll S1 "1" "p1" 9 false).1, false) ∧
    (pollsOf (close_poll S1 "1" "p1" 9 false).1.store "1").length =
      (pollsOf S1.store "1").length + 1 ∧
    (codeHistory (close_poll S1 "1" "p1" 9 false).1.store "1").length =
      (codeHistory S1.store "1").length + 1 ∧
    (close_poll S1 "1" "p1" 9 false).1.sent.length = S1.sent.length + 1 :=
  claim4_close_idempotent S1 "1" "p1" 9 11 false false P1
    (Reachable.step (Ev.sendnow "1" inp0) Reachable.init) (by decide) (by decide)

/-- C5: A successful close of a matching active poll appends the winning line
to the chat's history, archives a `PollResult` recording options, final votes,
winner index, winner line and close time, and sets `activePoll` to null. -/
theorem claim5_close_success (s : Sys) (c : ChatId) (pid : PollId) (now : Nat)
    (fs : Bool) (p : PollRecord) (hR : Reachable s)
    (hp : activeOf s.store c = some p) (hid : p.poll_id = pid) :
    ∃ wi wline, pyMaxKey p.votes = some wi ∧ p.options.get? wi = some wline ∧
      wline ≠ "" ∧
      activeOf (close_poll s c pid now fs).1.store c = none ∧
      pollsOf (close_poll s c pid now fs).1.store c =
        pollsOf s.store c ++ [{ poll_id := pid, options := p.options, votes := p.votes, winner := wline, winner_index := wi, closed_at := now }] ∧
      codeHistory (close_poll s c pid now fs).1.store c =
        codeHistory s.store c ++ [wline] := by
  obtain ⟨⟨a, b, c2, d, hv⟩, hlen, -, hopts⟩ := WFRecord_of_active hR hp
  obtain ⟨wi, wline, hmax, -, hget, hmem, heq⟩ :=
    close_poll_spec s c pid now fs p a b c2 d hp hid hv hlen
  have hwne : wline ≠ "" := (hopts wline hmem).1
  refine ⟨wi, wline, hmax, hget, hwne, ?_, ?_, ?_⟩ <;> rw [heq] <;> dsimp only
  · rw [activeOf_set_active_self]
  · rw [pollsOf_set_active_self, pollsOf_add_poll_self]
  · rw [codeHistory_set_active, codeHistory_add_poll]
    simp [hwne]

/-- C5 witness: closing the poll opened by one force-send commits a line. -/
theorem claim5_close_success_witness :
    ∃ wi wline, pyMaxKey P1.votes = some wi ∧ P1.options.get? wi = some wline ∧
      wline ≠ "" ∧
      activeOf (close_poll S1 "1" "p1" 9 false).1.store "1" = none ∧
      pollsOf (close_poll S1 "1" "p1" 9 false).1.store "1" =
        pollsOf S1.store "1" ++ [{ poll_id := "p1", options := P1.options, votes := P1.votes, winner := wline, winner_index := wi, closed_at := 9 }] ∧
      codeHistory (close_poll S1 "1" "p1" 9 false).1.store "1" =
        codeHistory S1.store "1" ++ [wline] :=
  claim5_close_success S1 "1" "p1" 9 false P1
    (Reachable.step (Ev.sendnow "1" inp0) Reachable.init) (by decide) (by decide)

/-- C7: A vote event whose poll id matches no chat's current active poll
(unknown id, or poll already closed) leaves the store exactly unchanged. -/
theorem claim7_vote_unknown_noop (s : Store) (pid : PollId) (opts : List Nat)
    (h : ∀ e ∈ s.chats, ∀ p, e.2.active_poll = some p → p.poll_id ≠ pid) :
    poll_answer_handler s pid opts = s := by
  rw [poll_answer_handler, scanVote_no_match s.chats pid opts h]

/-- C7 witness: a vote for the unknown id `"p2"` while `"p1"` is active. -/
theorem claim7_vote_unknown_noop_witness :
    poll_answer_handler S0.store "p2" [0] = S0.store :=
  claim7_vote_unknown_noop S0.store "p2" [0] (by decide)

/-- C8: Vote ingestion never changes lifecycle state and only increments
counters: the matched chat keeps its archive and its active poll (same id,
options, deadlines), exactly the named valid option indices of {0,1,2,3} are
incremented by one, the votes keys stay exactly 0,1,2,3 in order, and every
other chat is untouched. -/
theorem claim8_vote_increments (pre post : List (ChatId × Chat)) (c : ChatId)
    (ch : Chat) (p : PollRecord) (pid : PollId) (opts : List Nat) (a b c2 d : Nat)
    (hpre : ∀ e ∈ pre, ∀ q, e.2.active_poll = some q → q.poll_id ≠ pid)
    (hap : ch.active_poll = some p) (hid : p.poll_id = pid)
    (hv : p.votes = [(0, a), (1, b), (2, c2), (3, d)]) (hnd : opts.Nodup) :
    poll_answer_handler ⟨pre ++ (c, ch) :: post⟩ pid opts =
      ⟨pre ++ (c, { ch with active_poll := some { p with votes := [(0, a + if 0 ∈ opts then 1 else 0), (1, b + if 1 ∈ opts then 1 else 0), (2, c2 + if 2 ∈ opts then 1 else 0), (3, d + if 3 ∈ opts then 1 else 0)] } }) :: post⟩ := by
  have hcount : ∀ k : Nat, opts.count k = if k ∈ opts then 1 else 0 := by
    intro k
    by_cases hk : k ∈ opts
    · rw [if_pos hk]
      exact List.count_eq_one_of_mem hnd hk
    · rw [if_neg hk]
      exact List.count_eq_zero.mpr hk
  rw [poll_answer_handler]
  dsimp only
  rw [scanVote_found pre c ch post pid opts p hpre hap hid, hv, incVotes_canon,
    hcount 0, hcount 1, hcount 2, hcount 3]

/-- C8 witness: voting option 1 on the active poll of `S0` bumps exactly that
counter. -/
theorem claim8_vote_increments_witness :
    poll_answer_handler ⟨[] ++ ("1", ⟨[R0], some P0⟩) :: []⟩ "p1" [1] =
      ⟨[] ++ ("1", { polls := [R0], active_poll := some { P0 with votes := [(0, 3 + if 0 ∈ [1] then 1 else 0), (1, 3 + if 1 ∈ [1] then 1 else 0), (2, 1 + if 2 ∈ [1] then 1 else 0), (3, 0 + if 3 ∈ [1] then 1 else 0)] } }) :: []⟩ :=
  claim8_vote_increments [] [] "1" ⟨[R0], some P0⟩ P0 "p1" [1] 3 3 1 0
    (by simp) (by decide) (by decide) (by decide) (by decide)

/-- C9: A close triggered by an explicit stop never schedules the auto-chain;
a successful close without stop does; and the post-delay continuation opens a
new poll exactly when the chat still has no active poll, leaving the state
untouched otherwise. -/
theorem claim9_auto_chain (s : Sys) (c : ChatId) (pid : PollId) (now : Nat)
    (inp : PollInput) (p : PollRecord) :
    ((close_poll s c pid now true).2 = false) ∧
    (Reachable s → activeOf s.store c = some p → p.poll_id = pid →
      (close_poll s c pid now false).2 = true) ∧
    (activeOf s.store c = some p → settle_and_chain s c inp = s) ∧
    (activeOf s.store c = none →
      activeOf (settle_and_chain s c inp).store c = some { poll_id := inp.poll_id, message_id := inp.message_id, options := generate_code_options (codeHistory s.store c) inp.response, votes := initVotes, close_time := inp.now + POLL_TIMEOUT, created_at := inp.now }) := by
  refine ⟨?_, ?_, ?_, ?_⟩
  · unfold close_poll
    dsimp only
    split
    · rfl
    · split
      · rfl
      · split
        · rfl
        · split
          · rfl
          · rfl
  · intro hR hp hid
    obtain ⟨⟨a, b, c2, d, hv⟩, hlen, -, -⟩ := WFRecord_of_active hR hp
    obtain ⟨wi, wline, -, -, -, -, heq⟩ :=
      close_poll_spec s c pid now false p a b c2 d hp hid hv hlen
    rw [heq]
    rfl
  · intro hp
    unfold settle_and_chain
    rw [get_chat_of_active hp]
    dsimp only
    rw [show (viewChat s.store c).active_poll = some p from hp]
  · intro hp
    unfold settle_and_chain
    dsimp only
    have h2 : (get_chat s.store c).2.active_poll = none := by
      rw [get_chat_snd]; exact hp
    rw [h2]
    dsimp only
    rw [activeOf_send_poll, codeHistory_get_chat]

/-- C9 witness: stop-close on the reachable `S1` chains nothing, a non-stop
close chains, the settle re-check is a no-op while `S1`'s poll is active, and
on the pollless `SNone` it opens a fresh poll. -/
theorem claim9_auto_chain_witness :
    ((close_poll S1 "1" "p1" 9 true).2 = false) ∧
    ((close_poll S1 "1" "p1" 9 false).2 = true) ∧
    (settle_and_chain S1 "1" inp0 = S1) ∧
    activeOf (settle_and_chain SNone "1" inp0).store "1" = some { poll_id := inp0.poll_id, message_id := inp0.message_id, options := generate_code_options (codeHistory SNone.store "1") inp0.response, votes := initVotes, close_time := inp0.now + POLL_TIMEOUT, created_at := inp0.now } :=
  ⟨(claim9_auto_chain S1 "1" "p1" 9 inp0 P1).1,
   (claim9_auto_chain S1 "1" "p1" 9 inp0 P1).2.1
     (Reachable.step (Ev.sendnow "1" inp0) Reachable.init) (by decide) (by decide),
   (claim9_auto_chain S1 "1" "p1" 9 inp0 P1).2.2.1 (by decide),
   (claim9_auto_chain SNone "1" "p1" 9 inp0 P1).2.2.2 (by decide)⟩

/-- C10: The committed line history is derived on every read: the value
`get_code_history` returns is exactly the winners of the archived polls with a
truthy (non-empty) winner, clearing the archived-poll list empties it, and an
archived result with an empty winner contributes no line. -/
theorem claim10_history_derived (s : Store) (c : ChatId) (r : PollResult) :
    (get_code_history s c).2 =
      ((pollsOf s c).filterMap fun q => if q.winner ≠ "" then some q.winner else none) ∧
    codeHistory (clear_chat s c) c = [] ∧
    codeHistory (add_poll s c r) c =
      codeHistory s c ++ if r.winner ≠ "" then [r.winner] else [] := by
  refine ⟨get_code_history_snd s c, ?_, codeHistory_add_poll s c r⟩
  unfold codeHistory pollsOf
  rw [viewChat_clear_self]
  rfl

/-- C6 (evaluated at the failing input): one `json.dump`/`json.load` cycle
turns the int keys of every `votes` dict into decimal strings, so a session
with non-empty history and a non-null active poll does not come back
field-for-field equal — the votes mapping `{0:3,...}` reloads as
`{"0":3,...}`, which Python `==` rejects. -/
theorem claim6_roundtrip_not_lossless :
    R0.winner ≠ "" ∧ (⟨[R0], some P0⟩ : Chat).active_poll ≠ none ∧
    (save_load_chat ⟨[R0], some P0⟩).active_poll =
      some { poll_id := "p1", message_id := 10, options := ["a", "b", "c", "d"], votes := [(.str "0", 3), (.str "1", 3), (.str "2", 1), (.str "3", 0)], close_time := 300, created_at := 0 } ∧
    ¬ chatEqPy ⟨[R0], some P0⟩ (save_load_chat ⟨[R0], some P0⟩) := by
  refine ⟨by decide, by decide, by decide, ?_⟩
  rintro ⟨-, hrec⟩
  have hrec' : recordEqPy P0 (save_load_record P0) := hrec
  obtain ⟨-, -, -, hd, -, -⟩ := hrec'
  exact absurd hd (by decide)

/-- C1 witness: the concrete scenario with votes `{0:3,1:3,2:1,3:0}`. -/
theorem claim1_winner_selection_witness :
    ∃ w wline, P0.options.get? w = some wline ∧
      pollsOf (close_poll S0 "1" "p1" 7 false).1.store "1" =
        pollsOf S0.store "1" ++ [{ poll_id := "p1", options := P0.options, votes := P0.votes, winner := wline, winner_index := w, closed_at := 7 }] ∧
      w < 4 ∧
      (∀ j, j < 4 → [3, 3, 1, 0].getD j 0 ≤ [3, 3, 1, 0].getD w 0) ∧
      (∀ j, j < w → [3, 3, 1, 0].getD j 0 < [3, 3, 1, 0].getD w 0) :=
  (claim1_winner_selection S0 "1" "p1" 7 false P0 3 3 1 0
    (by decide) (by decide) (by decide) (by decide)).1

end Bot
